import Mathlib

/-!
Verification development for the cache-emulator repository.

This file shallowly embeds the Python sources (src/emulator/address.py,
block.py, ram.py, cache.py and the reporting code in src/cache-sim.py) as
executable Lean definitions and proves or refutes the frozen claims about
them.

Modelling conventions:
* Python exceptions (numpy IndexError, dict KeyError, AttributeError on
  None, ZeroDivisionError) are modelled with `Except Unit`.
* Stored words are `Option Int`: `none` models the np.nan a Block is
  initialised with, `some v` a written value.  A value returned by a read
  is therefore `Option (Option Int)`: the outer `none` models Python's
  `None` ("no value"), `some w` a word taken out of a block.
* Binary address strings are `List Bool` (most significant bit first).
* `datetime.now()` timestamps are modelled by a caller-supplied logical
  time `t : Nat`; `random.choice` by a caller-supplied `rnd : Nat`
  (the chosen element is `start + rnd % blocks_per_set`, which ranges over
  exactly the values Python's choice over range(start, end) can take).
* Blocks cross the Cache/RAM boundary by value; the single place where
  Python mutates a RAM-owned block in place (the write-miss "in ram"
  branch of Cache.set_val) is modelled by an explicit write-back, which
  yields the same RAM slot contents.
-/

deriving instance DecidableEq for Except

namespace CacheEmu

/-- Python slice-index normalisation: a negative index counts from the end
and both directions are clamped to [0, len]. -/
def pyIdx (len : Nat) (i : Int) : Nat :=
  if i < 0 then ((len : Int) + i).toNat else min i.toNat len

/-- Python slice `l[a:b]` with already-explicit bounds (an omitted start is
passed as 0, an omitted stop as the length). -/
def pySlice (l : List Bool) (a b : Int) : List Bool :=
  (l.take (pyIdx l.length b)).drop (pyIdx l.length a)

/-- Fuel-driven floor-log helper: one halving step per unit of fuel. -/
def intLog2Aux : Nat → Nat → Nat
  | 0, _ => 0
  | fuel + 1, n => if 2 ≤ n then intLog2Aux fuel (n / 2) + 1 else 0

/-- `int(math.log(n, 2))` from address.py, i.e. the floor of log2 on the
powers of two the configuration contract allows.  40 halving steps make it
exact for every n < 2^40; all geometries here are below 2^32. -/
def intLog2 (n : Nat) : Nat := intLog2Aux 40 n

/-- Fuel-driven minimal binary representation, most significant bit first
(empty for n = 0); 34 steps are exact for every n < 2^34. -/
def natToBitsAux : Nat → Nat → List Bool
  | 0, _ => []
  | fuel + 1, n => if n = 0 then [] else natToBitsAux fuel (n / 2) ++ [decide (n % 2 = 1)]

/-- `bin(n)[2:]`: Python renders 0 as "0", not as the empty string. -/
def pyBin (n : Nat) : List Bool := if n = 0 then [false] else natToBitsAux 34 n

/-- `Address._get_binary`: the minimal binary string left-padded with zeros
to 32 characters. -/
def getBinary (n : Nat) : List Bool :=
  List.replicate (32 - (pyBin n).length) false ++ pyBin n

/-- `int(s, 2)` on a binary string (the empty string, which Python would
reject, only reaches this function where the source guards against it). -/
def bitsToNat (l : List Bool) : Nat :=
  l.foldl (fun acc b => 2 * acc + (if b then 1 else 0)) 0

/-- `Address._get_index_len`: direct mapped (sets == 1) uses log2(entries),
fully associative (sets == entries) uses 0, set associative log2(sets). -/
def get_index_len (sets entries : Nat) : Nat :=
  if sets = 1 then intLog2 entries
  else if sets = entries then 0
  else intLog2 sets

/-- The `Address` object of address.py: the 32-bit binary string plus the
three computed field widths.  `tag_len` is an `Int` because the source
computes `32 - offset_len - index_len`, which can go negative for
oversized geometries. -/
structure Address where
  address : List Bool
  offset_len : Nat
  index_len : Nat
  tag_len : Int
deriving DecidableEq

/-- `Address.__init__(address, block_size, entries, sets)`. -/
def Address.init (address block_size entries sets : Nat) : Address :=
  { address := getBinary address
    offset_len := intLog2 block_size
    index_len := get_index_len sets entries
    tag_len := 32 - (intLog2 block_size : Int) - (get_index_len sets entries : Int) }

/-- `Address.get_tag`: `self.address[: self._tag_len]`. -/
def Address.get_tag (a : Address) : List Bool :=
  pySlice a.address 0 a.tag_len

/-- `Address.get_index`: `self.address[self._tag_len : self._tag_len + self._index_len]`. -/
def Address.get_index (a : Address) : List Bool :=
  pySlice a.address a.tag_len (a.tag_len + (a.index_len : Int))

/-- `Address.get_offset`: `self.address[-self._offset_len :]` (note that
for offset_len = 0 Python's -0 slice start yields the whole string). -/
def Address.get_offset (a : Address) : List Bool :=
  pySlice a.address (-(a.offset_len : Int)) (a.address.length : Int)

/-- A Block of block.py: a fixed-size word array (initially all np.nan,
modelled as `none`) and the tag that last wrote into it. -/
structure Block where
  data : List (Option Int)
  tag : Option (List Bool)
deriving DecidableEq

/-- `Block.__init__(size)`. -/
def Block.init (size : Nat) : Block :=
  { data := List.replicate size none, tag := none }

/-- `Block.set_val(val, loc, tag)`: sets the tag and writes the word;
numpy raises IndexError when loc is out of range. -/
def Block.set_val (b : Block) (val : Int) (loc : Nat) (tag : List Bool) : Except Unit Block :=
  if loc < b.data.length then
    Except.ok { data := b.data.set loc (some val), tag := some tag }
  else Except.error ()

/-- RAM of ram.py: a flat array of (valid, Block) slots. -/
structure RAM where
  blocks : List (Bool × Block)
deriving DecidableEq

/-- `RAM.__init__(num_blocks, block_size)`. -/
def RAM.init (num_blocks block_size : Nat) : RAM :=
  ⟨List.replicate num_blocks (false, Block.init block_size)⟩

/-- `RAM.get_block(tag, index)`: indexes the flat array at `int(tag+index, 2)`
(IndexError when out of range) and returns the Block when valid, else None. -/
def RAM.get_block (ram : RAM) (tag index : List Bool) : Except Unit (Option Block) :=
  match ram.blocks.get? (bitsToNat (tag ++ index)) with
  | none => Except.error ()
  | some (valid, b) => Except.ok (if valid then some b else none)

/-- `RAM.set_block(tag, index, data)`: marks the slot valid and stores the
block; numpy raises IndexError when `int(tag+index, 2)` is out of range. -/
def RAM.set_block (ram : RAM) (tag index : List Bool) (data : Block) : Except Unit RAM :=
  let ix := bitsToNat (tag ++ index)
  if ix < ram.blocks.length then Except.ok ⟨ram.blocks.set ix (true, data)⟩
  else Except.error ()

/-- The replacement strategy string of cache.py. -/
inductive Repl where
  | random
  | FIFO
  | LRU
deriving DecidableEq

/-- One row of `Cache.blocks`: [valid bit, tag, Block, time in, access time].
The Block entry is an `Option` because the source can store Python `None`
there (row initialisation stores a Block, but `get_block`'s no-match row and
the read-miss path can carry None). -/
structure Slot where
  valid : Bool
  tag : Option (List Bool)
  block : Option Block
  time_in : Option Nat
  time_acc : Option Nat
deriving DecidableEq

/-- The cache state of cache.py. `sets` is the dict {set number -> first
block index} built by `_get_sets` (represented as the list of its values,
keys being 0..num_sets-1). -/
structure Cache where
  block_size : Nat
  replacement : Repl
  sets : List Nat
  blocks_per_set : Nat
  blocks : List Slot
  read_hits : Nat
  read_misses : Nat
  write_hits : Nat
  write_misses : Nat
deriving DecidableEq

/-- `Cache._get_sets`: sets[i] = i * blocks_per_set for i < num_sets. -/
def get_sets (num_sets blocks_per_set : Nat) : List Nat :=
  (List.range num_sets).map (fun i => i * blocks_per_set)

/-- The initial slot stored num_blocks times by `Cache.__init__`:
[False, None, Block(block_size), np.nan, np.nan]. -/
def initSlot (block_size : Nat) : Slot :=
  { valid := false, tag := none, block := some (Block.init block_size)
    time_in := none, time_acc := none }

/-- `Cache.__init__(block_size, num_sets, num_blocks, replacement)`. -/
def Cache.init (block_size num_sets num_blocks : Nat) (replacement : Repl) : Cache :=
  { block_size := block_size
    replacement := replacement
    sets := get_sets num_sets (num_blocks / num_sets)
    blocks_per_set := num_blocks / num_sets
    blocks := List.replicate num_blocks (initSlot block_size)
    read_hits := 0
    read_misses := 0
    write_hits := 0
    write_misses := 0 }

/-- The index computation repeated in get_block/set_block:
`index = 0 if not index else int(index, 2)`. -/
def pyIndexOf (a : Address) : Nat :=
  if a.get_index.isEmpty then 0 else bitsToNat a.get_index

/-- The row returned by `Cache.get_block` when an associative set has no
matching way: `[False, None, None, None, None]`. -/
def noneRow : Slot :=
  { valid := false, tag := none, block := none, time_in := none, time_acc := none }

/-- First index and row of a set slice satisfying
`np.logical_and(set[:, 0] == True, set[:, 1] == tag)` (np.where picks the
first match). -/
def findMatchRow : List Slot → List Bool → Nat → Option (Nat × Slot)
  | [], _, _ => none
  | r :: rs, t, i =>
    if r.valid = true ∧ r.tag = some t then some (i, r) else findMatchRow rs t (i + 1)

/-- `Cache.get_block(address)`: direct mapped returns the row at the index
(IndexError out of range); associative scans the set slice and returns
either the first matching way's absolute index and row, or (None, empty
row).  A set number outside the sets dict raises KeyError. -/
def Cache.get_block (c : Cache) (a : Address) : Except Unit (Option Nat × Slot) :=
  let index := pyIndexOf a
  if c.sets.length = 1 then
    match c.blocks.get? index with
    | some row => Except.ok (some index, row)
    | none => Except.error ()
  else
    match c.sets.get? index with
    | none => Except.error ()
    | some start =>
      let s := (c.blocks.drop start).take c.blocks_per_set
      match findMatchRow s a.get_tag 0 with
      | some (i, row) => Except.ok (some (i + start), row)
      | none => Except.ok (none, noneRow)

/-- First index of the minimum of a nonempty list, tail recursion:
np.argmin keeps the earliest minimum because only a strictly smaller value
updates the best index. -/
def argminAux : List Nat → Nat → Nat → Nat → Nat
  | [], _, best, _ => best
  | v :: rest, i, best, bv =>
    if v < bv then argminAux rest (i + 1) i v else argminAux rest (i + 1) best bv

/-- Extracts the values of a timestamp column when all are set. -/
def seqOpts : List (Option Nat) → Option (List Nat)
  | [] => some []
  | none :: _ => none
  | some x :: rest => (seqOpts rest).map (fun l => x :: l)

/-- `np.argmin` over a timestamp column.  The source only reaches it on a
full set, where every timestamp has been written; an empty column
(ValueError) or a leftover np.nan (TypeError against datetime) is an
error. -/
def argminTimes (l : List (Option Nat)) : Except Unit Nat :=
  match seqOpts l with
  | none => Except.error ()
  | some [] => Except.error ()
  | some (v :: vs) => Except.ok (argminAux vs 1 0 v)

/-- `Cache.replace(tag, index, data)`.  Note the source bug kept verbatim:
for LRU and FIFO the argmin index `ix` is relative to the set slice
`self.blocks[start:end]` but the write goes to `self.blocks[ix]`, an
absolute position, while the random branch chooses an absolute index from
range(start, end). -/
def Cache.replace (c : Cache) (tag : List Bool) (index : Nat) (data : Block)
    (t : Nat) (rnd : Nat) : Except Unit Cache :=
  match c.sets.get? index with
  | none => Except.error ()
  | some start =>
    let s := (c.blocks.drop start).take c.blocks_per_set
    match c.replacement with
    | Repl.random =>
      if c.blocks_per_set = 0 then Except.error ()
      else
        let i := start + rnd % c.blocks_per_set
        if i < c.blocks.length then
          Except.ok { c with blocks := c.blocks.set i ⟨true, some tag, some data, some t, some t⟩ }
        else Except.error ()
    | Repl.LRU =>
      match argminTimes (s.map Slot.time_acc) with
      | Except.error e => Except.error e
      | Except.ok i =>
        Except.ok { c with blocks := c.blocks.set i ⟨true, some tag, some data, some t, some t⟩ }
    | Repl.FIFO =>
      match argminTimes (s.map Slot.time_in) with
      | Except.error e => Except.error e
      | Except.ok i =>
        Except.ok { c with blocks := c.blocks.set i ⟨true, some tag, some data, some t, some t⟩ }

/-- `Cache.set_block(address, data)`: direct mapped overwrites the slot in
place, keeping the old insertion time when the slot was valid; associative
occupies the first invalid way of the set, or falls through to replace. -/
def Cache.set_block (c : Cache) (a : Address) (data : Block)
    (t : Nat) (rnd : Nat) : Except Unit Cache :=
  let tag := a.get_tag
  let index := pyIndexOf a
  if c.sets.length = 1 then
    match c.blocks.get? index with
    | none => Except.error ()
    | some row =>
      let time_in := if row.valid then row.time_in else some t
      Except.ok { c with blocks := c.blocks.set index ⟨true, some tag, some data, time_in, some t⟩ }
  else
    match c.sets.get? index with
    | none => Except.error ()
    | some start =>
      let s := (c.blocks.drop start).take c.blocks_per_set
      match s.findIdx? (fun r => !r.valid) with
      | some i =>
        Except.ok { c with blocks := c.blocks.set (start + i) ⟨true, some tag, some data, some t, some t⟩ }
      | none => c.replace tag index data t rnd

/-- `Cache.get_val(address, ram)`.  The hit path refreshes the access time
and returns the word.  The miss path increments the miss counter, fetches
from RAM, and then tests `if block:` on the OLD row's block (kept verbatim
from the source): the associative no-match row carries None there, so the
fetched block is never installed; the direct-mapped row always carries a
Block, so when RAM returned None the source calls set_block with None and
then crashes on `new_block.data` (AttributeError, modelled as an error). -/
def Cache.get_val (c : Cache) (a : Address) (ram : RAM)
    (t : Nat) (rnd : Nat) : Except Unit (Option (Option Int) × Cache) :=
  let offset := bitsToNat a.get_offset
  match c.get_block a with
  | Except.error e => Except.error e
  | Except.ok (ixOpt, row) =>
    if row.valid = true ∧ row.tag = some a.get_tag then
      match ixOpt, row.block with
      | some ix, some b =>
        let c' := { c with
          read_hits := c.read_hits + 1,
          blocks := c.blocks.set ix ⟨true, row.tag, row.block, row.time_in, some t⟩ }
        match b.data.get? offset with
        | some w => Except.ok (some w, c')
        | none => Except.error ()
      | _, _ => Except.error ()
    else
      let c' := { c with read_misses := c.read_misses + 1 }
      match ram.get_block a.get_tag a.get_index with
      | Except.error e => Except.error e
      | Except.ok new_block =>
        if row.block.isSome then
          match new_block with
          | some nb =>
            match c'.set_block a nb t rnd with
            | Except.error e => Except.error e
            | Except.ok c'' =>
              match nb.data.get? offset with
              | some w => Except.ok (some w, c'')
              | none => Except.error ()
          | none => Except.error ()
        else Except.ok (none, c')

/-- `Cache.set_val(address, val, ram)`.  Hit: mutate the cached block,
refresh the access time, write through to RAM.  Miss: take the RAM block
when present with matching tag and mutate it (in Python in place through
the shared reference, modelled by an explicit write-back), otherwise
fabricate a fresh block, write the value, store it in RAM; either way the
resulting block is installed in the cache. -/
def Cache.set_val (c : Cache) (a : Address) (val : Int) (ram : RAM)
    (t : Nat) (rnd : Nat) : Except Unit (Cache × RAM) :=
  let offset := bitsToNat a.get_offset
  match c.get_block a with
  | Except.error e => Except.error e
  | Except.ok (ixOpt, row) =>
    if row.valid = true ∧ row.tag = some a.get_tag then
      match ixOpt, row.block with
      | some ix, some b =>
        match b.set_val val offset a.get_tag with
        | Except.error e => Except.error e
        | Except.ok b' =>
          let c' := { c with
            write_hits := c.write_hits + 1,
            blocks := c.blocks.set ix ⟨true, row.tag, some b', row.time_in, some t⟩ }
          match ram.set_block a.get_tag a.get_index b' with
          | Except.error e => Except.error e
          | Except.ok ram' => Except.ok (c', ram')
      | _, _ => Except.error ()
    else
      let c1 := { c with write_misses := c.write_misses + 1 }
      match ram.get_block a.get_tag a.get_index with
      | Except.error e => Except.error e
      | Except.ok blockOpt =>
        match blockOpt with
        | some b =>
          if b.tag = some a.get_tag then
            match b.set_val val offset a.get_tag with
            | Except.error e => Except.error e
            | Except.ok b' =>
              match ram.set_block a.get_tag a.get_index b' with
              | Except.error e => Except.error e
              | Except.ok ram' =>
                match c1.set_block a b' t rnd with
                | Except.error e => Except.error e
                | Except.ok c2 => Except.ok (c2, ram')
          else
            match (Block.init c.block_size).set_val val offset a.get_tag with
            | Except.error e => Except.error e
            | Except.ok b' =>
              match ram.set_block a.get_tag a.get_index b' with
              | Except.error e => Except.error e
              | Except.ok ram' =>
                match c1.set_block a b' t rnd with
                | Except.error e => Except.error e
                | Except.ok c2 => Except.ok (c2, ram')
        | none =>
          match (Block.init c.block_size).set_val val offset a.get_tag with
          | Except.error e => Except.error e
          | Except.ok b' =>
            match ram.set_block a.get_tag a.get_index b' with
            | Except.error e => Except.error e
            | Except.ok ram' =>
              match c1.set_block a b' t rnd with
              | Except.error e => Except.error e
              | Except.ok c2 => Except.ok (c2, ram')

/-- One memory operation issued through the CPU facade. -/
inductive Op where
  | read : Address → Op
  | write : Address → Int → Op

/-- One load/store forwarded to the cache with its logical time and its
random draw. -/
def step (c : Cache) (ram : RAM) : Op → Nat → Nat → Except Unit (Cache × RAM)
  | Op.read a, t, rnd =>
    match c.get_val a ram t rnd with
    | Except.error e => Except.error e
    | Except.ok (_, c') => Except.ok (c', ram)
  | Op.write a v, t, rnd => c.set_val a v ram t rnd

/-- A run: a sequence of operations, each with its time and random draw. -/
def run (c : Cache) (ram : RAM) : List (Op × Nat × Nat) → Except Unit (Cache × RAM)
  | [] => Except.ok (c, ram)
  | (op, t, rnd) :: rest =>
    match step c ram op t rnd with
    | Except.error e => Except.error e
    | Except.ok (c', ram') => run c' ram' rest

/-- Whether a lookup of the address in the current cache state is a hit
(the condition `valid and address.get_tag() == tag` tested by get_val and
set_val on the row that get_block returns). -/
def Cache.lookupHit (c : Cache) (a : Address) : Bool :=
  match c.get_block a with
  | Except.ok (_, row) => row.valid && decide (row.tag = some a.get_tag)
  | Except.error _ => false

/-- The address an operation touches. -/
def opAddr : Op → Address
  | Op.read a => a
  | Op.write a _ => a

/-- The number of read operations in a trace. -/
def numReads : List (Op × Nat × Nat) → Nat
  | [] => 0
  | (Op.read _, _, _) :: rest => numReads rest + 1
  | (Op.write _ _, _, _) :: rest => numReads rest

/-- The number of write operations in a trace. -/
def numWrites : List (Op × Nat × Nat) → Nat
  | [] => 0
  | (Op.read _, _, _) :: rest => numWrites rest
  | (Op.write _ _, _, _) :: rest => numWrites rest + 1

/-- The number of read operations in a trace that hit, counted against the
evolving cache state the trace itself produces. -/
def countHitsR (c : Cache) (ram : RAM) : List (Op × Nat × Nat) → Nat
  | [] => 0
  | (op, t, rnd) :: rest =>
    (match op with
     | Op.read a => if c.lookupHit a then 1 else 0
     | Op.write _ _ => 0) +
    (match step c ram op t rnd with
     | Except.ok (c', ram') => countHitsR c' ram' rest
     | Except.error _ => 0)

/-- The number of write operations in a trace that hit, counted against
the evolving cache state the trace itself produces. -/
def countHitsW (c : Cache) (ram : RAM) : List (Op × Nat × Nat) → Nat
  | [] => 0
  | (op, t, rnd) :: rest =>
    (match op with
     | Op.read _ => 0
     | Op.write a _ => if c.lookupHit a then 1 else 0) +
    (match step c ram op t rnd with
     | Except.ok (c', ram') => countHitsW c' ram' rest
     | Except.error _ => 0)

/-- The shape a cache constructed fully associatively (num_sets =
num_blocks = m, block size B) keeps during a run: the sets mapping of
Cache.init with one block per set, and every slot except slot 0 still the
untouched initial slot. -/
def FAInv (B m : Nat) (c : Cache) : Prop :=
  c.sets = get_sets m 1 ∧ c.blocks_per_set = 1 ∧
  ∃ s, c.blocks = s :: List.replicate (m - 1) (initSlot B)

/-- The read-miss-rate computation of print_results (cache-sim.py):
`cpu.cache.read_misses / total_reads * 100` with no guard, so a run with
zero reads raises ZeroDivisionError.  The subsequent round(.., 2) cannot
affect definedness and is omitted. -/
def read_miss_rate (read_hits read_misses : Nat) : Except Unit ℚ :=
  let total_reads := read_hits + read_misses
  if total_reads = 0 then Except.error ()
  else Except.ok ((read_misses : ℚ) / (total_reads : ℚ) * 100)

/-- The write-miss-rate computation of print_results, same shape. -/
def write_miss_rate (write_hits write_misses : Nat) : Except Unit ℚ :=
  let total_writes := write_hits + write_misses
  if total_writes = 0 then Except.error ()
  else Except.ok ((write_misses : ℚ) / (total_writes : ℚ) * 100)

/-- `blocks_in_ram = -(ram_size // -block_size)` from cache-sim.py main:
Python floor division on a negated divisor, i.e. the ceiling. -/
def blocks_in_ram (ram_size block_size : Nat) : Nat :=
  (-(Int.fdiv (ram_size : Int) (-(block_size : Int)))).toNat

/-! ### Concrete instances used by the counterexamples and witnesses -/

/-- Address 2 in a set-associative geometry: block_size 2, 4 cache blocks,
2 sets.  Decodes to offset_len 1, index_len 1, tag_len 30; tag is 30
zeros, index is the single bit 1, offset bit 0. -/
def aC1 : Address := Address.init 2 2 4 2

/-- A RAM block holding 7 and 8, tagged with aC1's tag. -/
def blkC1 : Block := ⟨[some 7, some 8], some (List.replicate 30 false)⟩

/-- A RAM whose slot at tag‖index = 1 is valid and holds blkC1. -/
def ramC1 : RAM := ⟨[(false, Block.init 2), (true, blkC1)]⟩

/-- Address 0 in a fully associative geometry: block_size 2, 2 cache
blocks, 2 sets.  Decodes to offset_len 1, index_len 0, tag_len 31. -/
def aC2 : Address := Address.init 0 2 2 2

/-- The block Cache.set_val fabricates when storing 5 at aC2. -/
def blkC2 : Block := ⟨[some 5, none], some (List.replicate 31 false)⟩

/-- The cache state after storing 5 at aC2 through a fresh fully
associative cache. -/
def cC2 : Cache := { Cache.init 2 2 2 Repl.LRU with
  write_misses := 1,
  blocks := [⟨true, some (List.replicate 31 false), some blkC2, some 1, some 1⟩, initSlot 2] }

/-- The RAM state after that store: slot 0 valid and holding blkC2. -/
def ramC2 : RAM := ⟨[(true, blkC2)]⟩

/-- Address 0 decoded against block_size 2^31, 4 cache blocks, 1 set:
the offset takes 31 bits, the index 2, so the computed tag length is the
negative number -1. -/
def aC4 : Address := Address.init 0 (2 ^ 31) 4 1

/-- Address 12345 decoded against block_size 64, 1024 cache blocks, 2
sets (a well-formed set-associative geometry). -/
def aC4w : Address := Address.init 12345 64 1024 2

/-- Address 192 decoded against block_size 64, 1024 cache blocks, 2 sets
(offset_len 6, index_len 1, tag_len 25): its tag‖index block number
is 3. -/
def aC7 : Address := Address.init 192 64 1024 2

/-- A valid slot with a one-bit tag and given timestamps. -/
def slotV (tg : Bool) (tin tacc : Nat) : Slot :=
  ⟨true, some [tg], some (Block.init 2), some tin, some tacc⟩

/-- A 2-set, 2-way cache whose four slots are all valid; set 1 holds the
ways with access times 10 and 20, set 0 the ways with access times 5
and 6. -/
def cC5 : Cache :=
  { block_size := 2, replacement := Repl.LRU, sets := get_sets 2 2, blocks_per_set := 2,
    blocks := [slotV false 1 5, slotV false 2 6, slotV true 3 10, slotV true 4 20],
    read_hits := 0, read_misses := 0, write_hits := 0, write_misses := 0 }

/-- Address 0 in a direct-mapped geometry: block_size 2, 2 cache blocks,
1 set; tag is 30 zeros, index bit 0, offset bit 0. -/
def aC9 : Address := Address.init 0 2 2 1

/-- A direct-mapped cache whose slot 0 is valid under a different tag,
installed at logical time 3. -/
def cC9 : Cache :=
  { block_size := 2, replacement := Repl.LRU, sets := get_sets 1 2, blocks_per_set := 2,
    blocks := [⟨true, some (List.replicate 29 false ++ [true]), some (Block.init 2), some 3, some 3⟩,
               initSlot 2],
    read_hits := 0, read_misses := 0, write_hits := 0, write_misses := 0 }

/-- The 31-zero tag of address 0 in the fully associative geometry of
aC10. -/
def tagA : List Bool := List.replicate 31 false

/-- Address 2 in a fully associative geometry: block_size 2, 2 cache
blocks, 2 sets; its tag (30 zeros then 1) differs from tagA. -/
def aC10 : Address := Address.init 2 2 2 2

/-- A RAM block holding 9 under aC10's tag. -/
def blkC10 : Block := ⟨[some 9, none], some aC10.get_tag⟩

/-- A RAM whose slot at aC10's tag‖index (= 1) is valid. -/
def ramC10 : RAM := ⟨[(false, Block.init 2), (true, blkC10)]⟩

/-- A fully associative cache populated at its single usable slot 0 with
tagA. -/
def cC10 : Cache := { Cache.init 2 2 2 Repl.LRU with
  blocks := [⟨true, some tagA, some (Block.init 2), some 1, some 1⟩, initSlot 2] }

/-- The RAM state after the distinct-tag write of the C10 witness: the
block at aC10's tag‖index now holds the written 5. -/
def ramC10w : RAM := ⟨[(false, Block.init 2), (true, ⟨[some 5, none], some aC10.get_tag⟩)]⟩

/-- The cache state after the distinct-tag write of the C10 witness:
slot 0 replaced at time 7 with aC10's tag and the written block. -/
def cC10w : Cache := { cC10 with
  write_misses := 1,
  blocks := [⟨true, some aC10.get_tag, some ⟨[some 5, none], some aC10.get_tag⟩, some 7, some 7⟩,
             initSlot 2] }

/-- The fresh 2-set, 4-block cache of the C1/C6 instances. -/
def cA : Cache := Cache.init 2 2 4 Repl.LRU

/-- cA after one read miss. -/
def cA1 : Cache := { cA with read_misses := 1 }

/-- The fresh fully associative 2-block cache of the C2/C6 instances. -/
def cB : Cache := Cache.init 2 2 2 Repl.LRU

/-- A one-read trace at aC1. -/
def lW : List (Op × Nat × Nat) := [(Op.read aC1, 1, 0)]

/-! ### Theorems -/

/-- C1.  The claim says a read miss whose block is valid in the backing
store installs that block and returns the requested word in every
configuration.  On the set-associative (and fully associative) path this
fails: with the backing store valid at aC1's tag/index, get_val on a fresh
2-set cache returns None and leaves every cache slot untouched, because
the miss path tests the old lookup row's block (None on the associative
no-match path) instead of the fetched block before installing. -/
theorem C1_assoc_read_miss_drops_block :
    ramC1.get_block aC1.get_tag aC1.get_index = Except.ok (some blkC1)
    ∧ (Cache.init 2 2 4 Repl.LRU).get_val aC1 ramC1 1 0
        = Except.ok (none, { Cache.init 2 2 4 Repl.LRU with read_misses := 1 }) := by
  decide

/-- C2.  After the store the backing store slot at the address's tag‖index
is valid and holds the written word (the write-through half of the claim
holds), but the claimed consequence fails: a cold re-read through a
freshly constructed fully associative cache over the same backing store
returns None, not the written value, because of the read-miss
non-install bug. -/
theorem C2_cold_reread_returns_none :
    (Cache.init 2 2 2 Repl.LRU).set_val aC2 5 (RAM.init 1 2) 1 0 = Except.ok (cC2, ramC2)
    ∧ ramC2.get_block aC2.get_tag aC2.get_index = Except.ok (some blkC2)
    ∧ blkC2.data.get? (bitsToNat aC2.get_offset) = some (some 5)
    ∧ (Cache.init 2 2 2 Repl.LRU).get_val aC2 ramC2 2 0
        = Except.ok (none, { Cache.init 2 2 2 Repl.LRU with read_misses := 1 }) := by
  decide

/-- C3.  The claim says no cache operation raises for a well-formed
address and a read of a never-written address yields None, including the
direct-mapped configuration.  In the direct-mapped configuration the
source instead crashes: the lookup row always carries a Block object, so
the miss path calls set_block with the None that RAM returned and then
dereferences None.data (AttributeError, modelled as Except.error). -/
theorem C3_direct_mapped_uninitialized_read_raises :
    (Cache.init 2 1 2 Repl.LRU).get_val (Address.init 0 2 2 1) (RAM.init 1 2) 1 0
      = Except.error () := by
  decide

/-- C4 counterexample.  For block_size 2^31, 4 cache blocks, 1 set
(all positive powers of two, block_size ≥ 2, sets dividing blocks) and
address 0 < 2^32, the computed widths still sum to 32 (offset 31,
index 2, tag -1) but the concatenation tag‖index‖offset does not
reproduce the 32-bit representation: Python's negative-length slices
return 31+0+31 characters. -/
theorem C4_decomposition_cx :
    ((aC4.offset_len : Int) + (aC4.index_len : Int) + aC4.tag_len = 32)
    ∧ aC4.get_tag ++ aC4.get_index ++ aC4.get_offset ≠ aC4.address := by
  decide

theorem intLog2Aux_pow : ∀ (k fuel : Nat), k < fuel → intLog2Aux fuel (2 ^ k) = k := by
  intro k
  induction k with
  | zero =>
    intro fuel hf
    cases fuel with
    | zero => omega
    | succ f => simp [intLog2Aux]
  | succ k ih =>
    intro fuel hf
    cases fuel with
    | zero => omega
    | succ f =>
      have h2 : 2 ≤ 2 ^ (k + 1) := by
        have h1 : 0 < (2 : Nat) ^ k := pow_pos (by norm_num) k
        have : (2 : Nat) ^ (k + 1) = 2 ^ k * 2 := pow_succ 2 k
        omega
      have hdiv : 2 ^ (k + 1) / 2 = 2 ^ k := by
        rw [pow_succ]
        exact Nat.mul_div_cancel _ (by norm_num)
      simp only [intLog2Aux]
      rw [if_pos h2, hdiv, ih f (by omega)]

theorem intLog2_pow (k : Nat) (hk : k < 40) : intLog2 (2 ^ k) = k :=
  intLog2Aux_pow k 40 hk

theorem natToBitsAux_length :
    ∀ (fuel k n : Nat), n < 2 ^ k → k ≤ fuel → (natToBitsAux fuel n).length ≤ k := by
  intro fuel
  induction fuel with
  | zero => intro k n _ _; simp [natToBitsAux]
  | succ f ih =>
    intro k n hn hk
    by_cases h0 : n = 0
    · simp [natToBitsAux, h0]
    · have hk1 : 1 ≤ k := by
        rcases Nat.eq_zero_or_pos k with hk0 | hk1
        · subst hk0; simp at hn; omega
        · exact hk1
      simp only [natToBitsAux]
      rw [if_neg h0, List.length_append]
      have hdiv : n / 2 < 2 ^ (k - 1) := by
        have hpow : (2 : Nat) ^ k = 2 ^ (k - 1) * 2 := by
          rw [← pow_succ]
          congr 1
          omega
        have : n < 2 ^ (k - 1) * 2 := by omega
        omega
      have := ih (k - 1) (n / 2) hdiv (by omega)
      simp only [List.length_cons, List.length_nil]
      omega

theorem pyBin_length_le (n : Nat) (h : n < 2 ^ 32) : (pyBin n).length ≤ 32 := by
  unfold pyBin
  split
  · simp
  · exact natToBitsAux_length 34 32 n h (by omega)

theorem getBinary_length (n : Nat) (h : n < 2 ^ 32) : (getBinary n).length = 32 := by
  unfold getBinary
  rw [List.length_append, List.length_replicate]
  have := pyBin_length_le n h
  omega

/-- The generic partition fact behind the amended C4: on a 32-character
string, the three slices the source takes with widths offset O ≥ 1 and
index I, O + I ≤ 32 (so tag width 32 - O - I ≥ 0), concatenate back to
the whole string. -/
theorem address_concat (l : List Bool) (O I : Nat) (hl : l.length = 32)
    (hO : 1 ≤ O) (hfit : O + I ≤ 32) :
    pySlice l 0 (32 - (O : Int) - (I : Int))
      ++ pySlice l (32 - (O : Int) - (I : Int)) (32 - (O : Int) - (I : Int) + (I : Int))
      ++ pySlice l (-(O : Int)) ((l.length : Nat) : Int) = l := by
  have e1 : pyIdx l.length 0 = 0 := by simp [pyIdx]
  have e2 : pyIdx l.length (32 - (O : Int) - (I : Int)) = 32 - O - I := by
    simp only [pyIdx, hl]
    split
    · omega
    · omega
  have e3 : pyIdx l.length (32 - (O : Int) - (I : Int) + (I : Int)) = 32 - O := by
    simp only [pyIdx, hl]
    split
    · omega
    · omega
  have e4 : pyIdx l.length (-(O : Int)) = 32 - O := by
    simp only [pyIdx, hl]
    split
    · omega
    · omega
  have e5 : pyIdx l.length ((l.length : Nat) : Int) = 32 := by
    simp only [pyIdx, hl]
    split
    · omega
    · omega
  unfold pySlice
  rw [e1, e2, e3, e4, e5, List.drop_zero]
  have ht32 : l.take 32 = l := List.take_of_length_le (by omega)
  rw [ht32]
  have key : l.take (32 - O - I) = (l.take (32 - O)).take (32 - O - I) := by
    rw [List.take_take, min_eq_left (by omega)]
  rw [key, List.take_append_drop, List.take_append_drop]

/-- C4 amended: with the additional hypothesis that the computed offset
and index widths fit into 32 bits (geometries up to 2^32), the three
field widths sum to 32 and the concatenation tag‖index‖offset reproduces
the 32-bit representation.  Without that hypothesis the concatenation
half fails (see the counterexample). -/
theorem C4_decomposition_amended (bo bn bs addr : Nat)
    (hbo : 1 ≤ bo) (hbo32 : bo ≤ 32) (hbn32 : bn ≤ 32) (hbs32 : bs ≤ 32)
    (hdvd : (2 : Nat) ^ bs ∣ 2 ^ bn) (haddr : addr < 2 ^ 32)
    (hfit : (Address.init addr (2 ^ bo) (2 ^ bn) (2 ^ bs)).offset_len
      + (Address.init addr (2 ^ bo) (2 ^ bn) (2 ^ bs)).index_len ≤ 32) :
    ((Address.init addr (2 ^ bo) (2 ^ bn) (2 ^ bs)).offset_len : Int)
      + ((Address.init addr (2 ^ bo) (2 ^ bn) (2 ^ bs)).index_len : Int)
      + (Address.init addr (2 ^ bo) (2 ^ bn) (2 ^ bs)).tag_len = 32
    ∧ (Address.init addr (2 ^ bo) (2 ^ bn) (2 ^ bs)).get_tag
        ++ (Address.init addr (2 ^ bo) (2 ^ bn) (2 ^ bs)).get_index
        ++ (Address.init addr (2 ^ bo) (2 ^ bn) (2 ^ bs)).get_offset
      = (Address.init addr (2 ^ bo) (2 ^ bn) (2 ^ bs)).address := by
  constructor
  · simp only [Address.init]
    ring
  · have hO1 : 1 ≤ intLog2 (2 ^ bo) := by
      rw [intLog2_pow bo (by omega)]
      exact hbo
    have hfit' : intLog2 (2 ^ bo) + get_index_len (2 ^ bs) (2 ^ bn) ≤ 32 := hfit
    simp only [Address.get_tag, Address.get_index, Address.get_offset, Address.init]
    exact address_concat (getBinary addr) (intLog2 (2 ^ bo)) (get_index_len (2 ^ bs) (2 ^ bn))
      (getBinary_length addr haddr) hO1 hfit'

/-- Witness for C4_decomposition_amended: block_size 64, 1024 cache
blocks, 2 sets, address 12345. -/
theorem C4_decomposition_amended_witness :
    (1 ≤ 6 ∧ (2 : Nat) ^ 1 ∣ 2 ^ 10 ∧ 12345 < 2 ^ 32
      ∧ aC4w.offset_len + aC4w.index_len ≤ 32)
    ∧ ((aC4w.offset_len : Int) + (aC4w.index_len : Int) + aC4w.tag_len = 32
      ∧ aC4w.get_tag ++ aC4w.get_index ++ aC4w.get_offset = aC4w.address) :=
  ⟨⟨by decide, by decide, by decide, by decide⟩,
    C4_decomposition_amended 6 10 1 12345 (by decide) (by decide) (by decide) (by decide)
      (by decide) (by decide) (by decide)⟩

theorem replace_fields {c : Cache} {tag : List Bool} {index : Nat} {data : Block}
    {t rnd : Nat} {c' : Cache} (h : c.replace tag index data t rnd = Except.ok c') :
    c'.read_hits = c.read_hits ∧ c'.read_misses = c.read_misses
    ∧ c'.write_hits = c.write_hits ∧ c'.write_misses = c.write_misses
    ∧ c'.sets = c.sets ∧ c'.blocks_per_set = c.blocks_per_set
    ∧ c'.block_size = c.block_size ∧ c'.replacement = c.replacement
    ∧ c'.blocks.length = c.blocks.length := by
  unfold Cache.replace at h
  split at h
  · cases h
  · split at h
    · split at h
      · cases h
      · dsimp only at h
        split at h
        · cases h; simp
        · cases h
    · dsimp only at h
      split at h
      · cases h
      · cases h; simp
    · dsimp only at h
      split at h
      · cases h
      · cases h; simp

theorem set_block_fields {c : Cache} {a : Address} {data : Block}
    {t rnd : Nat} {c' : Cache} (h : c.set_block a data t rnd = Except.ok c') :
    c'.read_hits = c.read_hits ∧ c'.read_misses = c.read_misses
    ∧ c'.write_hits = c.write_hits ∧ c'.write_misses = c.write_misses
    ∧ c'.sets = c.sets ∧ c'.blocks_per_set = c.blocks_per_set
    ∧ c'.block_size = c.block_size ∧ c'.replacement = c.replacement
    ∧ c'.blocks.length = c.blocks.length := by
  unfold Cache.set_block at h
  dsimp only at h
  split at h
  · split at h
    · cases h
    · cases h
      simp
  · split at h
    · cases h
    · split at h
      · cases h; simp
      · exact replace_fields h

theorem get_val_counts {c : Cache} {a : Address} {ram : RAM} {t rnd : Nat}
    {res : Option (Option Int)} {c' : Cache}
    (h : c.get_val a ram t rnd = Except.ok (res, c')) :
    c'.read_hits = c.read_hits + (if c.lookupHit a then 1 else 0)
    ∧ c'.read_misses = c.read_misses + (if c.lookupHit a then 0 else 1)
    ∧ c'.write_hits = c.write_hits ∧ c'.write_misses = c.write_misses
    ∧ c'.sets = c.sets ∧ c'.blocks_per_set = c.blocks_per_set
    ∧ c'.block_size = c.block_size ∧ c'.replacement = c.replacement
    ∧ c'.blocks.length = c.blocks.length := by
  unfold Cache.get_val at h
  dsimp only at h
  split at h
  · cases h
  · next ixOpt row heq =>
    by_cases hcond : row.valid = true ∧ row.tag = some a.get_tag
    · have hl : c.lookupHit a = true := by
        obtain ⟨hv, ht⟩ := hcond
        simp [Cache.lookupHit, heq, hv, ht]
      rw [if_pos hcond] at h
      rw [hl]
      split at h <;> try cases h
      split at h <;> try cases h
      simp
    · have hl : c.lookupHit a = false := by
        simp only [Cache.lookupHit, heq]
        simp only [not_and] at hcond
        by_cases hv : row.valid = true
        · simp [hv, hcond hv]
        · simp [Bool.eq_false_iff.mpr hv]
      rw [if_neg hcond] at h
      rw [hl]
      split at h
      · cases h
      · split at h
        · split at h <;> try cases h
          split at h
          · cases h
          · next c2 heq2 =>
            split at h <;> try cases h
            have hf := set_block_fields heq2
            simpa using hf
        · cases h
          simp

theorem set_val_counts {c : Cache} {a : Address} {v : Int} {ram : RAM} {t rnd : Nat}
    {c' : Cache} {ram' : RAM}
    (h : c.set_val a v ram t rnd = Except.ok (c', ram')) :
    c'.write_hits = c.write_hits + (if c.lookupHit a then 1 else 0)
    ∧ c'.write_misses = c.write_misses + (if c.lookupHit a then 0 else 1)
    ∧ c'.read_hits = c.read_hits ∧ c'.read_misses = c.read_misses
    ∧ c'.sets = c.sets ∧ c'.blocks_per_set = c.blocks_per_set
    ∧ c'.block_size = c.block_size ∧ c'.replacement = c.replacement
    ∧ c'.blocks.length = c.blocks.length := by
  unfold Cache.set_val at h
  dsimp only at h
  split at h
  · cases h
  · next ixOpt row heq =>
    by_cases hcond : row.valid = true ∧ row.tag = some a.get_tag
    · have hl : c.lookupHit a = true := by
        obtain ⟨hv, ht⟩ := hcond
        simp [Cache.lookupHit, heq, hv, ht]
      rw [if_pos hcond] at h
      rw [hl]
      split at h <;> try cases h
      split at h <;> try cases h
      split at h <;> try cases h
      simp
    · have hl : c.lookupHit a = false := by
        simp only [Cache.lookupHit, heq]
        simp only [not_and] at hcond
        by_cases hv : row.valid = true
        · simp [hv, hcond hv]
        · simp [Bool.eq_false_iff.mpr hv]
      rw [if_neg hcond] at h
      rw [hl]
      split at h
      · cases h
      · split at h
        · split at h
          · split at h <;> try cases h
            split at h <;> try cases h
            split at h
            · cases h
            · next c2 heq2 =>
              cases h
              have hf := set_block_fields heq2
              simp at hf ⊢
              exact ⟨hf.2.2.1, hf.2.2.2.1, hf.1, hf.2.1, hf.2.2.2.2⟩
          · split at h <;> try cases h
            split at h <;> try cases h
            split at h
            · cases h
            · next c2 heq2 =>
              cases h
              have hf := set_block_fields heq2
              simp at hf ⊢
              exact ⟨hf.2.2.1, hf.2.2.2.1, hf.1, hf.2.1, hf.2.2.2.2⟩
        · split at h <;> try cases h
          split at h <;> try cases h
          split at h
          · cases h
          · next c2 heq2 =>
            cases h
            have hf := set_block_fields heq2
            simp at hf ⊢
            exact ⟨hf.2.2.1, hf.2.2.2.1, hf.1, hf.2.1, hf.2.2.2.2⟩

theorem run_accounting :
    ∀ (l : List (Op × Nat × Nat)) (c : Cache) (ram : RAM) (c' : Cache) (ram' : RAM),
    run c ram l = Except.ok (c', ram') →
    c'.read_hits = c.read_hits + countHitsR c ram l
    ∧ c'.read_hits + c'.read_misses = c.read_hits + c.read_misses + numReads l
    ∧ c'.write_hits = c.write_hits + countHitsW c ram l
    ∧ c'.write_hits + c'.write_misses = c.write_hits + c.write_misses + numWrites l := by
  intro l
  induction l with
  | nil =>
    intro c ram c' ram' h
    unfold run at h
    cases h
    simp [countHitsR, countHitsW, numReads, numWrites]
  | cons hd tl ih =>
    intro c ram c' ram' h
    obtain ⟨op, t, rnd⟩ := hd
    unfold run at h
    split at h
    · cases h
    · next c1 ram1 heq =>
      have hrest := ih c1 ram1 c' ram' h
      cases op with
      | read a =>
        have hstep := heq
        simp only [step] at hstep
        split at hstep
        · cases hstep
        · next res c1' heq2 =>
          cases hstep
          have hc := get_val_counts heq2
          have hcnt : countHitsR c ram ((Op.read a, t, rnd) :: tl)
              = (if c.lookupHit a then 1 else 0) + countHitsR c1 ram tl := by
            simp only [countHitsR, heq]
          have hcntW : countHitsW c ram ((Op.read a, t, rnd) :: tl)
              = countHitsW c1 ram tl := by
            simp only [countHitsW, heq]
            simp
          simp only [numReads, numWrites]
          rw [hcnt, hcntW]
          obtain ⟨e1, e2, e3, e4, _⟩ := hc
          obtain ⟨f1, f2, f3, f4⟩ := hrest
          by_cases hla : c.lookupHit a
          · simp [hla] at e1 e2 ⊢
            omega
          · simp [hla] at e1 e2 ⊢
            omega
      | write a v =>
        have hstep := heq
        simp only [step] at hstep
        have hc := set_val_counts hstep
        have hcnt : countHitsR c ram ((Op.write a v, t, rnd) :: tl)
            = countHitsR c1 ram1 tl := by
          simp only [countHitsR, step, hstep]
          simp
        have hcntW : countHitsW c ram ((Op.write a v, t, rnd) :: tl)
            = (if c.lookupHit a then 1 else 0) + countHitsW c1 ram1 tl := by
          simp only [countHitsW, step, hstep]
        simp only [numReads, numWrites]
        rw [hcnt, hcntW]
        obtain ⟨e1, e2, e3, e4, _⟩ := hc
        obtain ⟨f1, f2, f3, f4⟩ := hrest
        by_cases hla : c.lookupHit a
        · simp [hla] at e1 e2 ⊢
          omega
        · simp [hla] at e1 e2 ⊢
          omega

theorem countHitsR_le : ∀ (l : List (Op × Nat × Nat)) (c : Cache) (ram : RAM),
    countHitsR c ram l ≤ numReads l := by
  intro l
  induction l with
  | nil => intro c ram; simp [countHitsR, numReads]
  | cons hd tl ih =>
    intro c ram
    obtain ⟨op, t, rnd⟩ := hd
    cases op with
    | read a =>
      simp only [countHitsR, numReads]
      have h2 : (match step c ram (Op.read a) t rnd with
          | Except.ok (c', ram') => countHitsR c' ram' tl
          | Except.error _ => 0) ≤ numReads tl := by
        split
        · exact ih _ _
        · exact Nat.zero_le _
      have h1 : (if c.lookupHit a then 1 else 0) ≤ 1 := by split <;> omega
      omega
    | write a v =>
      simp only [countHitsR, numReads]
      have h2 : (match step c ram (Op.write a v) t rnd with
          | Except.ok (c', ram') => countHitsR c' ram' tl
          | Except.error _ => 0) ≤ numReads tl := by
        split
        · exact ih _ _
        · exact Nat.zero_le _
      omega

theorem countHitsW_le : ∀ (l : List (Op × Nat × Nat)) (c : Cache) (ram : RAM),
    countHitsW c ram l ≤ numWrites l := by
  intro l
  induction l with
  | nil => intro c ram; simp [countHitsW, numWrites]
  | cons hd tl ih =>
    intro c ram
    obtain ⟨op, t, rnd⟩ := hd
    cases op with
    | read a =>
      simp only [countHitsW, numWrites]
      have h2 : (match step c ram (Op.read a) t rnd with
          | Except.ok (c', ram') => countHitsW c' ram' tl
          | Except.error _ => 0) ≤ numWrites tl := by
        split
        · exact ih _ _
        · exact Nat.zero_le _
      omega
    | write a v =>
      simp only [countHitsW, numWrites]
      have h2 : (match step c ram (Op.write a v) t rnd with
          | Except.ok (c', ram') => countHitsW c' ram' tl
          | Except.error _ => 0) ≤ numWrites tl := by
        split
        · exact ih _ _
        · exact Nat.zero_le _
      have h1 : (if c.lookupHit a then 1 else 0) ≤ 1 := by split <;> omega
      omega

/-- C6.  Every successful get_val increments exactly one of the read
counters by 1 and leaves the write counters unchanged; every successful
set_val increments exactly one of the write counters by 1 and leaves the
read counters unchanged; over any run all four counters are monotonically
non-decreasing; and a run started from zeroed counters ends with
read_hits equal to the number of read hits, read_hits + read_misses equal
to the number of reads, and the analogous facts for writes. -/
theorem C6_counter_accounting :
    (∀ (c : Cache) (a : Address) (ram : RAM) (t rnd : Nat) (res : Option (Option Int)) (c' : Cache),
      c.get_val a ram t rnd = Except.ok (res, c') →
        (c'.read_hits = c.read_hits + 1 ∧ c'.read_misses = c.read_misses
          ∨ c'.read_hits = c.read_hits ∧ c'.read_misses = c.read_misses + 1)
        ∧ c'.write_hits = c.write_hits ∧ c'.write_misses = c.write_misses)
    ∧ (∀ (c : Cache) (a : Address) (v : Int) (ram : RAM) (t rnd : Nat) (c' : Cache) (ram' : RAM),
      c.set_val a v ram t rnd = Except.ok (c', ram') →
        (c'.write_hits = c.write_hits + 1 ∧ c'.write_misses = c.write_misses
          ∨ c'.write_hits = c.write_hits ∧ c'.write_misses = c.write_misses + 1)
        ∧ c'.read_hits = c.read_hits ∧ c'.read_misses = c.read_misses)
    ∧ (∀ (c : Cache) (ram : RAM) (l : List (Op × Nat × Nat)) (c' : Cache) (ram' : RAM),
      run c ram l = Except.ok (c', ram') →
        c.read_hits ≤ c'.read_hits ∧ c.read_misses ≤ c'.read_misses
        ∧ c.write_hits ≤ c'.write_hits ∧ c.write_misses ≤ c'.write_misses)
    ∧ (∀ (c : Cache) (ram : RAM) (l : List (Op × Nat × Nat)) (c' : Cache) (ram' : RAM),
      c.read_hits = 0 → c.read_misses = 0 → c.write_hits = 0 → c.write_misses = 0 →
      run c ram l = Except.ok (c', ram') →
        c'.read_hits = countHitsR c ram l ∧ c'.read_hits + c'.read_misses = numReads l
        ∧ c'.write_hits = countHitsW c ram l
        ∧ c'.write_hits + c'.write_misses = numWrites l) := by
  refine ⟨?_, ?_, ?_, ?_⟩
  · intro c a ram t rnd res c' h
    obtain ⟨e1, e2, e3, e4, _⟩ := get_val_counts h
    by_cases hla : c.lookupHit a
    · simp [hla] at e1 e2
      exact ⟨Or.inl ⟨e1, e2⟩, e3, e4⟩
    · simp [hla] at e1 e2
      exact ⟨Or.inr ⟨e1, e2⟩, e3, e4⟩
  · intro c a v ram t rnd c' ram' h
    obtain ⟨e1, e2, e3, e4, _⟩ := set_val_counts h
    by_cases hla : c.lookupHit a
    · simp [hla] at e1 e2
      exact ⟨Or.inl ⟨e1, e2⟩, e3, e4⟩
    · simp [hla] at e1 e2
      exact ⟨Or.inr ⟨e1, e2⟩, e3, e4⟩
  · intro c ram l c' ram' h
    obtain ⟨f1, f2, f3, f4⟩ := run_accounting l c ram c' ram' h
    have g1 := countHitsR_le l c ram
    have g2 := countHitsW_le l c ram
    omega
  · intro c ram l c' ram' h1 h2 h3 h4 h
    obtain ⟨f1, f2, f3, f4⟩ := run_accounting l c ram c' ram' h
    omega

/-- Witness for C6_counter_accounting: one read miss, one write miss, a
one-element run, and a zero-start run, all at concrete states. -/
theorem C6_counter_accounting_witness :
    (cA.get_val aC1 ramC1 1 0 = Except.ok (none, cA1)
      ∧ ((cA1.read_hits = cA.read_hits + 1 ∧ cA1.read_misses = cA.read_misses)
          ∨ (cA1.read_hits = cA.read_hits ∧ cA1.read_misses = cA.read_misses + 1))
      ∧ cA1.write_hits = cA.write_hits ∧ cA1.write_misses = cA.write_misses)
    ∧ (cB.set_val aC2 5 (RAM.init 1 2) 1 0 = Except.ok (cC2, ramC2)
      ∧ ((cC2.write_hits = cB.write_hits + 1 ∧ cC2.write_misses = cB.write_misses)
          ∨ (cC2.write_hits = cB.write_hits ∧ cC2.write_misses = cB.write_misses + 1))
      ∧ cC2.read_hits = cB.read_hits ∧ cC2.read_misses = cB.read_misses)
    ∧ (run cA ramC1 lW = Except.ok (cA1, ramC1)
      ∧ cA.read_hits ≤ cA1.read_hits ∧ cA.read_misses ≤ cA1.read_misses
      ∧ cA.write_hits ≤ cA1.write_hits ∧ cA.write_misses ≤ cA1.write_misses)
    ∧ (cA1.read_hits = countHitsR cA ramC1 lW ∧ cA1.read_hits + cA1.read_misses = numReads lW
      ∧ cA1.write_hits = countHitsW cA ramC1 lW
      ∧ cA1.write_hits + cA1.write_misses = numWrites lW) :=
  ⟨⟨by decide, C6_counter_accounting.1 cA aC1 ramC1 1 0 none cA1 (by decide)⟩,
   ⟨by decide, C6_counter_accounting.2.1 cB aC2 5 (RAM.init 1 2) 1 0 cC2 ramC2 (by decide)⟩,
   ⟨by decide, C6_counter_accounting.2.2.1 cA ramC1 lW cA1 ramC1 (by decide)⟩,
   C6_counter_accounting.2.2.2 cA ramC1 lW cA1 ramC1 rfl rfl rfl rfl (by decide)⟩

/-- C5.  The claim says the LRU/FIFO policies evict the chosen way inside
the full target set.  On set 1 (ways at absolute indices 2 and 3, access
times 10 and 20) the LRU eviction picks relative way 0 but overwrites
self.blocks[0] — a slot of set 0 — leaving both ways of set 1 untouched;
only the random branch converts to an absolute index. -/
theorem C5_replace_wrong_slot :
    cC5.replace [true, true] 1 (Block.init 2) 99 0 =
      Except.ok { cC5 with blocks :=
        [⟨true, some [true, true], some (Block.init 2), some 99, some 99⟩,
         slotV false 2 6, slotV true 3 10, slotV true 4 20] } := by
  decide

/-- C7 counterexample.  The backing store built by main for the daxpy
workload at dimension 1 (ram_size 24, block_size 64) has a single block,
so RAM.set_block on the decoded tag/index of address 192 in a standard
geometry (block_size 64, 1024 cache blocks, 2 sets; block number
tag‖index = 3) raises IndexError instead of always succeeding: the
capacity is fixed to the workload size, not to the tag_bits + index_bits
address space. -/
theorem C7_ram_capacity_cx :
    blocks_in_ram 24 64 = 1
    ∧ (RAM.init (blocks_in_ram 24 64) 64).set_block aC7.get_tag aC7.get_index (Block.init 64)
        = Except.error () := by
  decide

/-- C7 amended: RAM.set_block succeeds — marking the slot at the numeric
tag‖index valid and storing the block — exactly when that block number is
below the RAM's capacity, which is fixed at construction to
ceil(ram_size / block_size) blocks (the workload's footprint), not to the
full tag_bits + index_bits address space. -/
theorem C7_ram_set_block_amended (ram : RAM) (tag index : List Bool) (data : Block)
    (h : bitsToNat (tag ++ index) < ram.blocks.length) :
    ram.set_block tag index data
      = Except.ok ⟨ram.blocks.set (bitsToNat (tag ++ index)) (true, data)⟩
    ∧ (ram.blocks.set (bitsToNat (tag ++ index)) (true, data)).get?
        (bitsToNat (tag ++ index)) = some (true, data) := by
  refine ⟨?_, ?_⟩
  · unfold RAM.set_block
    rw [if_pos h]
  · simp [List.get?_eq_getElem?, List.getElem?_set_self',
      List.getElem?_eq_getElem h]

/-- Witness for C7_ram_set_block_amended at a concrete in-range input. -/
theorem C7_ram_set_block_amended_witness :
    bitsToNat ([true] ++ ([] : List Bool)) < (RAM.init 2 2).blocks.length
    ∧ ((RAM.init 2 2).set_block [true] [] (Block.init 2)
        = Except.ok ⟨(RAM.init 2 2).blocks.set (bitsToNat ([true] ++ ([] : List Bool)))
            (true, Block.init 2)⟩
      ∧ ((RAM.init 2 2).blocks.set (bitsToNat ([true] ++ ([] : List Bool)))
            (true, Block.init 2)).get? (bitsToNat ([true] ++ ([] : List Bool)))
          = some (true, Block.init 2)) :=
  ⟨by decide, C7_ram_set_block_amended (RAM.init 2 2) [true] [] (Block.init 2) (by decide)⟩

/-- C8.  print_results divides read_misses by read_hits + read_misses
(and likewise for writes) with no guard: on a freshly constructed cache
with zero accesses of either kind the computation is a
ZeroDivisionError, not a defined report. -/
theorem C8_miss_rate_divide_by_zero :
    read_miss_rate (Cache.init 64 2 1024 Repl.LRU).read_hits
        (Cache.init 64 2 1024 Repl.LRU).read_misses = Except.error ()
    ∧ write_miss_rate (Cache.init 64 2 1024 Repl.LRU).write_hits
        (Cache.init 64 2 1024 Repl.LRU).write_misses = Except.error () := by
  constructor <;> rfl

/-- C9 counterexample.  The claim says a replaced valid slot gets both
timestamps set to the current time.  In the direct-mapped path the source
keeps the old insertion timestamp (time_in = in_time if valid else time):
evicting cC9's slot 0 (installed at time 3) at time 9 leaves the
insertion timestamp at 3. -/
theorem C9_eviction_timestamps_cx :
    cC9.set_block aC9 (Block.init 2) 9 0 =
      Except.ok { cC9 with blocks :=
        [⟨true, some aC9.get_tag, some (Block.init 2), some 3, some 9⟩, initSlot 2] } := by
  decide

/-- C9 amended: when a valid slot's contents are replaced, the slot
actually overwritten gets the new tag and Block; on the associative
replace path both of its timestamps are set to the current time, while on
the direct-mapped path the last-access timestamp is set to the current
time but the insertion timestamp of a previously valid slot is
preserved. -/
theorem C9_eviction_timestamps_amended :
    (∀ (c : Cache) (a : Address) (data : Block) (t rnd : Nat) (row : Slot),
      c.sets.length = 1 → c.blocks.get? (pyIndexOf a) = some row → row.valid = true →
      c.set_block a data t rnd = Except.ok { c with
        blocks := c.blocks.set (pyIndexOf a)
          ⟨true, some a.get_tag, some data, row.time_in, some t⟩ })
    ∧ (∀ (c : Cache) (tag : List Bool) (index : Nat) (data : Block) (t rnd : Nat) (c' : Cache),
      c.replace tag index data t rnd = Except.ok c' →
      ∃ i, c'.blocks = c.blocks.set i ⟨true, some tag, some data, some t, some t⟩) := by
  constructor
  · intro c a data t rnd row h1 h2 h3
    unfold Cache.set_block
    rw [if_pos h1, h2]
    simp [h3]
  · intro c tag index data t rnd c' h
    unfold Cache.replace at h
    split at h
    · cases h
    · split at h
      · split at h
        · cases h
        · dsimp only at h
          split at h
          · cases h; exact ⟨_, rfl⟩
          · cases h
      · dsimp only at h
        split at h
        · cases h
        · cases h; exact ⟨_, rfl⟩
      · dsimp only at h
        split at h
        · cases h
        · cases h; exact ⟨_, rfl⟩

/-- Witness for C9_eviction_timestamps_amended: the direct-mapped part at
cC9/aC9 (slot 0 valid, installed at time 3, evicted at time 9) and the
replace part at cC5's full set 1. -/
theorem C9_eviction_timestamps_amended_witness :
    (cC9.sets.length = 1 ∧ cC9.blocks.get? (pyIndexOf aC9)
        = some ⟨true, some (List.replicate 29 false ++ [true]), some (Block.init 2), some 3, some 3⟩)
    ∧ cC9.set_block aC9 (Block.init 2) 9 0 = Except.ok { cC9 with
        blocks := cC9.blocks.set (pyIndexOf aC9)
          ⟨true, some aC9.get_tag, some (Block.init 2), some 3, some 9⟩ }
    ∧ (∃ i, (({ cC5 with blocks :=
          [⟨true, some [true, true], some (Block.init 2), some 99, some 99⟩,
           slotV false 2 6, slotV true 3 10, slotV true 4 20] }) : Cache).blocks
        = cC5.blocks.set i ⟨true, some [true, true], some (Block.init 2), some 99, some 99⟩) :=
  ⟨⟨by decide, by decide⟩,
   C9_eviction_timestamps_amended.1 cC9 aC9 (Block.init 2) 9 0
     ⟨true, some (List.replicate 29 false ++ [true]), some (Block.init 2), some 3, some 3⟩
     (by decide) (by decide) (by decide),
   C9_eviction_timestamps_amended.2 cC5 [true, true] 1 (Block.init 2) 99 0 _ (by decide)⟩

theorem get_sets_length (n bps : Nat) : (get_sets n bps).length = n := by
  simp [get_sets]

theorem get_sets_get? (n bps i : Nat) (h : i < n) :
    (get_sets n bps).get? i = some (i * bps) := by
  simp [get_sets, List.get?_eq_getElem?, List.getElem?_map, List.getElem?_range h]

theorem pySlice_eq_nil (l : List Bool) (x : Int) : pySlice l x x = [] := by
  unfold pySlice
  apply List.drop_eq_nil_of_le
  rw [List.length_take]
  exact min_le_left _ _

theorem fa_index_len (B m addr : Nat) :
    (Address.init addr B m m).index_len = 0 := by
  simp only [Address.init, get_index_len]
  by_cases h1 : m = 1
  · subst h1
    simp [intLog2, intLog2Aux]
  · simp [h1]

theorem fa_get_index (B m addr : Nat) :
    (Address.init addr B m m).get_index = [] := by
  have h0 : (Address.init addr B m m).index_len = 0 := fa_index_len B m addr
  unfold Address.get_index
  rw [h0]
  simpa using pySlice_eq_nil (Address.init addr B m m).address (Address.init addr B m m).tag_len

theorem fa_pyIndexOf {a : Address} (ha : a.get_index = []) : pyIndexOf a = 0 := by
  simp [pyIndexOf, ha]

theorem cache_init_FAInv (B m : Nat) (hm : 1 ≤ m) (repl : Repl) :
    FAInv B m (Cache.init B m m repl) := by
  refine ⟨?_, ?_, ?_⟩
  · simp [Cache.init, Nat.div_self hm]
  · simp [Cache.init, Nat.div_self hm]
  · refine ⟨initSlot B, ?_⟩
    simp only [Cache.init]
    cases m with
    | zero => omega
    | succ k => simp [List.replicate]

theorem fa_get_block {m : Nat} (hm : 1 ≤ m) {c : Cache} (hsets : c.sets = get_sets m 1)
    (hbps : c.blocks_per_set = 1) {s0 : Slot} {rest : List Slot}
    (hblocks : c.blocks = s0 :: rest) {a : Address} (ha : a.get_index = []) :
    (c.get_block a = Except.ok (some 0, s0)
      ∧ (c.sets.length = 1 ∨ (s0.valid = true ∧ s0.tag = some a.get_tag)))
    ∨ (c.get_block a = Except.ok (none, noneRow)
      ∧ c.sets.length ≠ 1 ∧ ¬(s0.valid = true ∧ s0.tag = some a.get_tag)) := by
  have hidx : pyIndexOf a = 0 := fa_pyIndexOf ha
  unfold Cache.get_block
  dsimp only
  rw [hidx]
  by_cases hm1 : c.sets.length = 1
  · rw [if_pos hm1, hblocks]
    exact Or.inl ⟨rfl, Or.inl hm1⟩
  · rw [if_neg hm1]
    have hg : c.sets.get? 0 = some 0 := by
      rw [hsets]
      simpa using get_sets_get? m 1 0 (by omega)
    rw [hg]
    dsimp only
    rw [hbps, hblocks]
    simp only [List.drop_zero, List.take_succ_cons, List.take_zero]
    by_cases hcond : s0.valid = true ∧ s0.tag = some a.get_tag
    · left
      refine ⟨?_, Or.inr hcond⟩
      simp [findMatchRow, hcond]
    · right
      refine ⟨?_, hm1, hcond⟩
      simp [findMatchRow, hcond]

theorem argminTimes_some (x : Nat) : argminTimes [some x] = Except.ok 0 := rfl

theorem argminTimes_none : argminTimes [none] = Except.error () := rfl

theorem fa_replace_ok {m : Nat} (hm : 1 ≤ m) {c : Cache} (hsets : c.sets = get_sets m 1)
    (hbps : c.blocks_per_set = 1) {s0 : Slot} {rest : List Slot}
    (hblocks : c.blocks = s0 :: rest) {tag : List Bool} {data : Block} {t rnd : Nat}
    {c' : Cache} (h : c.replace tag 0 data t rnd = Except.ok c') :
    c'.blocks = c.blocks.set 0 ⟨true, some tag, some data, some t, some t⟩ := by
  have hg : c.sets.get? 0 = some 0 := by
    rw [hsets]
    simpa using get_sets_get? m 1 0 (by omega)
  have hs : (c.blocks.drop 0).take c.blocks_per_set = [s0] := by
    rw [hbps, hblocks]
    simp
  unfold Cache.replace at h
  rw [hg] at h
  dsimp only at h
  rw [hs] at h
  split at h
  · rw [hbps] at h
    rw [if_neg (by norm_num)] at h
    simp only [Nat.mod_one, Nat.add_zero] at h
    split at h
    · cases h
      rfl
    · cases h
  · simp only [List.map] at h
    cases hta : s0.time_acc with
    | none =>
      rw [hta, argminTimes_none] at h
      cases h
    | some v =>
      rw [hta, argminTimes_some] at h
      cases h
      rfl
  · simp only [List.map] at h
    cases hta : s0.time_in with
    | none =>
      rw [hta, argminTimes_none] at h
      cases h
    | some v =>
      rw [hta, argminTimes_some] at h
      cases h
      rfl

theorem fa_set_block_ok {m : Nat} (hm : 1 ≤ m) {c : Cache} (hsets : c.sets = get_sets m 1)
    (hbps : c.blocks_per_set = 1) {s0 : Slot} {rest : List Slot}
    (hblocks : c.blocks = s0 :: rest) {a : Address} (ha : a.get_index = [])
    {data : Block} {t rnd : Nat} {c' : Cache}
    (h : c.set_block a data t rnd = Except.ok c') :
    ∃ ti, c'.blocks = c.blocks.set 0 ⟨true, some a.get_tag, some data, ti, some t⟩ := by
  have hidx : pyIndexOf a = 0 := fa_pyIndexOf ha
  unfold Cache.set_block at h
  dsimp only at h
  rw [hidx] at h
  by_cases hm1 : c.sets.length = 1
  · rw [if_pos hm1] at h
    split at h
    · next heq =>
      rw [hblocks] at heq
      simp at heq
    · next row heq =>
      try dsimp only at h
      cases h
      exact ⟨_, rfl⟩
  · rw [if_neg hm1] at h
    have hg : c.sets.get? 0 = some 0 := by
      rw [hsets]
      simpa using get_sets_get? m 1 0 (by omega)
    rw [hg] at h
    dsimp only at h
    have hs : (c.blocks.drop 0).take c.blocks_per_set = [s0] := by
      rw [hbps, hblocks]
      simp
    rw [hs] at h
    by_cases hv : s0.valid
    · have hf : [s0].findIdx? (fun r => !r.valid) = none := by
        simp [List.findIdx?, hv]
      rw [hf] at h
      exact ⟨some t, fa_replace_ok hm hsets hbps hblocks h⟩
    · have hf : [s0].findIdx? (fun r => !r.valid) = some 0 := by
        simp [List.findIdx?, hv]
      rw [hf] at h
      dsimp only at h
      cases h
      exact ⟨some t, by simp⟩

theorem fa_set_val_blocks {m : Nat} (hm : 1 ≤ m) {c : Cache} (hsets : c.sets = get_sets m 1)
    (hbps : c.blocks_per_set = 1) {s0 : Slot} {rest : List Slot}
    (hblocks : c.blocks = s0 :: rest) {a : Address} (ha : a.get_index = [])
    {v : Int} {ram : RAM} {t rnd : Nat} {c' : Cache} {ram' : RAM}
    (h : c.set_val a v ram t rnd = Except.ok (c', ram')) :
    ∃ sl, c'.blocks = c.blocks.set 0 sl := by
  have H : ∃ ix row, c.get_block a = Except.ok (ix, row)
      ∧ (ix = some 0 ∧ row = s0 ∨ ¬(row.valid = true ∧ row.tag = some a.get_tag)) := by
    rcases fa_get_block hm hsets hbps hblocks ha with ⟨hgb, _⟩ | ⟨hgb, _, _⟩
    · exact ⟨some 0, s0, hgb, Or.inl ⟨rfl, rfl⟩⟩
    · exact ⟨none, noneRow, hgb, Or.inr (by simp [noneRow])⟩
  obtain ⟨ix, row, hgb, _⟩ := H
  unfold Cache.set_val at h
  dsimp only at h
  rw [hgb] at h
  dsimp only at h
  have hsets1 : ({ c with write_misses := c.write_misses + 1 } : Cache).sets = get_sets m 1 := hsets
  have hbps1 : ({ c with write_misses := c.write_misses + 1 } : Cache).blocks_per_set = 1 := hbps
  have hblocks1 : ({ c with write_misses := c.write_misses + 1 } : Cache).blocks = s0 :: rest := hblocks
  by_cases hcond : row.valid = true ∧ row.tag = some a.get_tag
  · rw [if_pos hcond] at h
    -- hit: get_block matched, so ix = some 0 and row = s0
    rcases fa_get_block hm hsets hbps hblocks ha with ⟨hgb2, _⟩ | ⟨hgb2, _, hneg⟩
    · rw [hgb] at hgb2
      injection hgb2 with hpair
      injection hpair with hix hrow
      subst hix
      cases hrb : row.block with
      | none =>
        rw [hrb] at h
        dsimp only at h
        cases h
      | some b =>
        rw [hrb] at h
        dsimp only at h
        split at h
        · cases h
        · split at h
          · cases h
          · cases h
            exact ⟨_, rfl⟩
    · rw [hgb] at hgb2
      injection hgb2 with hpair
      injection hpair with hix hrow
      subst hrow
      simp [noneRow] at hcond
  · rw [if_neg hcond] at h
    split at h
    · cases h
    · split at h
      · split at h
        · split at h <;> try cases h
          split at h <;> try cases h
          split at h
          · cases h
          · next c2 heq2 =>
            cases h
            obtain ⟨ti, hti⟩ := fa_set_block_ok hm hsets1 hbps1 hblocks1 ha heq2
            exact ⟨_, hti⟩
        · split at h <;> try cases h
          split at h <;> try cases h
          split at h
          · cases h
          · next c2 heq2 =>
            cases h
            obtain ⟨ti, hti⟩ := fa_set_block_ok hm hsets1 hbps1 hblocks1 ha heq2
            exact ⟨_, hti⟩
      · split at h <;> try cases h
        split at h <;> try cases h
        split at h
        · cases h
        · next c2 heq2 =>
          cases h
          obtain ⟨ti, hti⟩ := fa_set_block_ok hm hsets1 hbps1 hblocks1 ha heq2
          exact ⟨_, hti⟩

theorem fa_set_val_miss {m : Nat} (hm : 1 ≤ m) {c : Cache} (hsets : c.sets = get_sets m 1)
    (hbps : c.blocks_per_set = 1) {s0 : Slot} {rest : List Slot}
    (hblocks : c.blocks = s0 :: rest) {a : Address} (ha : a.get_index = [])
    (hcond : ¬(s0.valid = true ∧ s0.tag = some a.get_tag))
    {v : Int} {ram : RAM} {t rnd : Nat} {c' : Cache} {ram' : RAM}
    (h : c.set_val a v ram t rnd = Except.ok (c', ram')) :
    ∃ nb ti, c'.blocks = c.blocks.set 0 ⟨true, some a.get_tag, some nb, ti, some t⟩ := by
  have H : ∃ ix row, c.get_block a = Except.ok (ix, row)
      ∧ ¬(row.valid = true ∧ row.tag = some a.get_tag) := by
    rcases fa_get_block hm hsets hbps hblocks ha with ⟨hgb, _⟩ | ⟨hgb, _, _⟩
    · exact ⟨some 0, s0, hgb, hcond⟩
    · exact ⟨none, noneRow, hgb, by simp [noneRow]⟩
  obtain ⟨ix, row, hgb, hrow⟩ := H
  unfold Cache.set_val at h
  dsimp only at h
  rw [hgb] at h
  dsimp only at h
  have hsets1 : ({ c with write_misses := c.write_misses + 1 } : Cache).sets = get_sets m 1 := hsets
  have hbps1 : ({ c with write_misses := c.write_misses + 1 } : Cache).blocks_per_set = 1 := hbps
  have hblocks1 : ({ c with write_misses := c.write_misses + 1 } : Cache).blocks = s0 :: rest := hblocks
  rw [if_neg hrow] at h
  split at h
  · cases h
  · split at h
    · split at h
      · split at h <;> try cases h
        split at h <;> try cases h
        split at h
        · cases h
        · next c2 heq2 =>
          cases h
          obtain ⟨ti, hti⟩ := fa_set_block_ok hm hsets1 hbps1 hblocks1 ha heq2
          exact ⟨_, ti, hti⟩
      · split at h <;> try cases h
        split at h <;> try cases h
        split at h
        · cases h
        · next c2 heq2 =>
          cases h
          obtain ⟨ti, hti⟩ := fa_set_block_ok hm hsets1 hbps1 hblocks1 ha heq2
          exact ⟨_, ti, hti⟩
    · split at h <;> try cases h
      split at h <;> try cases h
      split at h
      · cases h
      · next c2 heq2 =>
        cases h
        obtain ⟨ti, hti⟩ := fa_set_block_ok hm hsets1 hbps1 hblocks1 ha heq2
        exact ⟨_, ti, hti⟩

theorem fa_get_val_blocks {m : Nat} (hm : 1 ≤ m) {c : Cache} (hsets : c.sets = get_sets m 1)
    (hbps : c.blocks_per_set = 1) {s0 : Slot} {rest : List Slot}
    (hblocks : c.blocks = s0 :: rest) {a : Address} (ha : a.get_index = [])
    {ram : RAM} {t rnd : Nat} {res : Option (Option Int)} {c' : Cache}
    (h : c.get_val a ram t rnd = Except.ok (res, c')) :
    c'.blocks = c.blocks ∨ ∃ sl, c'.blocks = c.blocks.set 0 sl := by
  have H : ∃ ix row, c.get_block a = Except.ok (ix, row)
      ∧ (ix = some 0 ∨ ¬(row.valid = true ∧ row.tag = some a.get_tag)) := by
    rcases fa_get_block hm hsets hbps hblocks ha with ⟨hgb, _⟩ | ⟨hgb, _, _⟩
    · exact ⟨some 0, s0, hgb, Or.inl rfl⟩
    · exact ⟨none, noneRow, hgb, Or.inr (by simp [noneRow])⟩
  obtain ⟨ix, row, hgb, hside⟩ := H
  unfold Cache.get_val at h
  dsimp only at h
  rw [hgb] at h
  dsimp only at h
  have hsets1 : ({ c with read_misses := c.read_misses + 1 } : Cache).sets = get_sets m 1 := hsets
  have hbps1 : ({ c with read_misses := c.read_misses + 1 } : Cache).blocks_per_set = 1 := hbps
  have hblocks1 : ({ c with read_misses := c.read_misses + 1 } : Cache).blocks = s0 :: rest := hblocks
  by_cases hcond : row.valid = true ∧ row.tag = some a.get_tag
  · rw [if_pos hcond] at h
    rcases hside with hix | hneg
    · subst hix
      cases hrb : row.block with
      | none =>
        rw [hrb] at h
        dsimp only at h
        cases h
      | some b =>
        rw [hrb] at h
        dsimp only at h
        split at h
        · cases h
          exact Or.inr ⟨_, rfl⟩
        · cases h
    · exact absurd hcond hneg
  · rw [if_neg hcond] at h
    split at h
    · cases h
    · split at h
      · split at h
        · split at h
          · cases h
          · next c2 heq2 =>
            split at h <;> try cases h
            obtain ⟨ti, hti⟩ := fa_set_block_ok hm hsets1 hbps1 hblocks1 ha heq2
            exact Or.inr ⟨_, hti⟩
        · cases h
      · cases h
        exact Or.inl rfl

theorem fa_read_miss_no_change {m : Nat} (hm2 : 2 ≤ m) {c : Cache}
    (hsets : c.sets = get_sets m 1) (hbps : c.blocks_per_set = 1) {s0 : Slot}
    {rest : List Slot} (hblocks : c.blocks = s0 :: rest) {a : Address}
    (ha : a.get_index = []) (hcond : ¬(s0.valid = true ∧ s0.tag = some a.get_tag))
    {ram : RAM} {t rnd : Nat} {res : Option (Option Int)} {c' : Cache}
    (h : c.get_val a ram t rnd = Except.ok (res, c')) :
    res = none ∧ c'.blocks = c.blocks := by
  have hlen : c.sets.length = m := by rw [hsets, get_sets_length]
  rcases fa_get_block (by omega) hsets hbps hblocks ha with ⟨hgb, hside⟩ | ⟨hgb, _, _⟩
  · rcases hside with h1 | h2
    · omega
    · exact absurd h2 hcond
  · unfold Cache.get_val at h
    dsimp only at h
    rw [hgb] at h
    dsimp only at h
    rw [if_neg (by simp [noneRow])] at h
    split at h
    · cases h
    · rw [if_neg (by simp [noneRow])] at h
      cases h
      exact ⟨rfl, rfl⟩

theorem fa_step_inv {B m : Nat} (hm : 1 ≤ m) {c : Cache} {ram : RAM} {op : Op}
    {t rnd : Nat} {c' : Cache} {ram' : RAM} (hinv : FAInv B m c)
    (ha : (opAddr op).get_index = []) (h : step c ram op t rnd = Except.ok (c', ram')) :
    FAInv B m c' := by
  obtain ⟨hsets, hbps, s0, hblocks⟩ := hinv
  cases op with
  | read a =>
    simp only [step] at h
    split at h
    · cases h
    · next res c1 heq2 =>
      cases h
      obtain ⟨_, _, _, _, hsets', hbps', _, _, _⟩ := get_val_counts heq2
      refine ⟨hsets' ▸ hsets, hbps' ▸ hbps, ?_⟩
      rcases fa_get_val_blocks hm hsets hbps hblocks ha heq2 with hb | ⟨sl, hb⟩
      · exact ⟨s0, hb ▸ hblocks ▸ rfl⟩
      · refine ⟨sl, ?_⟩
        rw [hb, hblocks]
        rfl
  | write a v =>
    simp only [step] at h
    obtain ⟨_, _, _, _, hsets', hbps', _, _, _⟩ := set_val_counts h
    refine ⟨hsets' ▸ hsets, hbps' ▸ hbps, ?_⟩
    obtain ⟨sl, hb⟩ := fa_set_val_blocks hm hsets hbps hblocks ha h
    refine ⟨sl, ?_⟩
    rw [hb, hblocks]
    rfl

theorem fa_run_inv {B m : Nat} (hm : 1 ≤ m) :
    ∀ (l : List (Op × Nat × Nat)) (c : Cache) (ram : RAM) (c' : Cache) (ram' : RAM),
    FAInv B m c →
    (∀ x ∈ l, ∃ raw, opAddr x.1 = Address.init raw B m m) →
    run c ram l = Except.ok (c', ram') → FAInv B m c' := by
  intro l
  induction l with
  | nil =>
    intro c ram c' ram' hinv _ h
    unfold run at h
    cases h
    exact hinv
  | cons hd tl ih =>
    intro c ram c' ram' hinv haddr h
    obtain ⟨op, t, rnd⟩ := hd
    unfold run at h
    split at h
    · cases h
    · next c1 ram1 heq =>
      have ha : (opAddr op).get_index = [] := by
        obtain ⟨raw, hraw⟩ := haddr (op, t, rnd) (by simp)
        rw [hraw]
        exact fa_get_index B m raw
      have hinv1 := fa_step_inv hm hinv ha heq
      exact ih c1 ram1 c' ram' hinv1 (fun x hx => haddr x (by simp [hx])) h

/-- C10 amended: in the configuration the code treats as fully
associative (num_sets = num_blocks = m), the decoded index has zero bits
and every address maps to set 0; each set holds m / m = 1 slot; during
any run at most slot 0 ever becomes valid (all other slots stay the
untouched initial slot); every distinct-tag WRITE to a populated cache
replaces that single slot 0; but a distinct-tag READ (in the associative
path, m ≥ 2) does not trigger replacement: it returns None and leaves
every slot unchanged. -/
theorem C10_fully_assoc_amended :
    (∀ (B m addr : Nat),
      (Address.init addr B m m).index_len = 0
      ∧ (Address.init addr B m m).get_index = []
      ∧ pyIndexOf (Address.init addr B m m) = 0)
    ∧ (∀ (B m : Nat) (repl : Repl), 1 ≤ m →
      (Cache.init B m m repl).blocks_per_set = 1
      ∧ (Cache.init B m m repl).sets.length = m)
    ∧ (∀ (B m : Nat) (repl : Repl) (ram : RAM) (l : List (Op × Nat × Nat))
        (c' : Cache) (ram' : RAM), 1 ≤ m →
      (∀ x ∈ l, ∃ raw, opAddr x.1 = Address.init raw B m m) →
      run (Cache.init B m m repl) ram l = Except.ok (c', ram') →
      ∃ s, c'.blocks = s :: List.replicate (m - 1) (initSlot B))
    ∧ (∀ (B m raw : Nat) (c : Cache) (s0 : Slot) (v : Int) (ram : RAM) (t rnd : Nat)
        (c' : Cache) (ram' : RAM), 1 ≤ m →
      c.sets = get_sets m 1 → c.blocks_per_set = 1 →
      c.blocks = s0 :: List.replicate (m - 1) (initSlot B) →
      s0.valid = true → s0.tag ≠ some (Address.init raw B m m).get_tag →
      c.set_val (Address.init raw B m m) v ram t rnd = Except.ok (c', ram') →
      ∃ nb ti, c'.blocks
        = Slot.mk true (some (Address.init raw B m m).get_tag) (some nb) ti (some t)
            :: List.replicate (m - 1) (initSlot B))
    ∧ (∀ (B m raw : Nat) (c : Cache) (s0 : Slot) (ram : RAM) (t rnd : Nat)
        (res : Option (Option Int)) (c' : Cache), 2 ≤ m →
      c.sets = get_sets m 1 → c.blocks_per_set = 1 →
      c.blocks = s0 :: List.replicate (m - 1) (initSlot B) →
      s0.tag ≠ some (Address.init raw B m m).get_tag →
      c.get_val (Address.init raw B m m) ram t rnd = Except.ok (res, c') →
      res = none ∧ c'.blocks = c.blocks) := by
  refine ⟨?_, ?_, ?_, ?_, ?_⟩
  · intro B m addr
    exact ⟨fa_index_len B m addr, fa_get_index B m addr,
      fa_pyIndexOf (fa_get_index B m addr)⟩
  · intro B m repl hm
    constructor
    · simp [Cache.init, Nat.div_self hm]
    · simp [Cache.init, Nat.div_self hm, get_sets_length]
  · intro B m repl ram l c' ram' hm haddr h
    have hinv := fa_run_inv hm l (Cache.init B m m repl) ram c' ram'
      (cache_init_FAInv B m hm repl) haddr h
    exact hinv.2.2
  · intro B m raw c s0 v ram t rnd c' ram' hm hsets hbps hblocks hv htag h
    have ha : (Address.init raw B m m).get_index = [] := fa_get_index B m raw
    have hcond : ¬(s0.valid = true ∧ s0.tag = some (Address.init raw B m m).get_tag) := by
      intro hc
      exact htag hc.2
    obtain ⟨nb, ti, hti⟩ := fa_set_val_miss hm hsets hbps hblocks ha hcond h
    refine ⟨nb, ti, ?_⟩
    rw [hti, hblocks]
    rfl
  · intro B m raw c s0 ram t rnd res c' hm2 hsets hbps hblocks htag h
    have ha : (Address.init raw B m m).get_index = [] := fa_get_index B m raw
    have hcond : ¬(s0.valid = true ∧ s0.tag = some (Address.init raw B m m).get_tag) := by
      intro hc
      exact htag hc.2
    exact fa_read_miss_no_change hm2 hsets hbps hblocks ha hcond h

/-- Witness for C10_fully_assoc_amended at B = 2, m = 2: a one-write run
populating slot 0, a distinct-tag write replacing slot 0, and a
distinct-tag read leaving the slots unchanged. -/
theorem C10_fully_assoc_amended_witness :
    ((aC2.index_len = 0 ∧ aC2.get_index = [] ∧ pyIndexOf aC2 = 0)
      ∧ cB.blocks_per_set = 1 ∧ cB.sets.length = 2)
    ∧ (run cB (RAM.init 1 2) [(Op.write aC2 5, 1, 0)] = Except.ok (cC2, ramC2)
      ∧ ∃ s, cC2.blocks = s :: List.replicate 1 (initSlot 2))
    ∧ (cC10.set_val aC10 5 ramC10 7 0 = Except.ok (cC10w, ramC10w)
      ∧ ∃ nb ti, cC10w.blocks
          = Slot.mk true (some aC10.get_tag) (some nb) ti (some 7)
              :: List.replicate 1 (initSlot 2))
    ∧ (cC10.get_val aC10 ramC10 5 0 = Except.ok (none, { cC10 with read_misses := 1 })
      ∧ ({ cC10 with read_misses := 1 } : Cache).blocks = cC10.blocks) :=
  ⟨⟨(C10_fully_assoc_amended.1 2 2 0 : _), by decide, by decide⟩,
   ⟨by decide,
    C10_fully_assoc_amended.2.2.1 2 2 Repl.LRU (RAM.init 1 2) [(Op.write aC2 5, 1, 0)]
      cC2 ramC2 (by decide)
      (fun x hx => by
        simp at hx
        rw [hx]
        exact ⟨0, rfl⟩)
      (by decide)⟩,
   ⟨by decide,
    C10_fully_assoc_amended.2.2.2.1 2 2 2 cC10
      ⟨true, some tagA, some (Block.init 2), some 1, some 1⟩ 5 ramC10 7 0 cC10w ramC10w
      (by decide) (by decide) (by decide) (by decide) (by decide) (by decide) (by decide)⟩,
   ⟨by decide,
    (C10_fully_assoc_amended.2.2.2.2 2 2 2 cC10
      ⟨true, some tagA, some (Block.init 2), some 1, some 1⟩ ramC10 5 0 none
      { cC10 with read_misses := 1 }
      (by decide) (by decide) (by decide) (by decide) (by decide) (by decide)).2⟩⟩

/-- C10 counterexample.  The claim says every distinct-tag access to a
populated fully associative cache triggers replacement of the single
usable slot.  A distinct-tag READ does not: with slot 0 valid under tagA
and the backing store valid for aC10's tag, get_val only bumps the miss
counter and leaves the slots unchanged (the read-miss path never
installs on the associative path). -/
theorem C10_fully_assoc_cx :
    cC10.get_val aC10 ramC10 5 0 = Except.ok (none, { cC10 with read_misses := 1 }) := by
  decide

end CacheEmu
